import Mathlib

/-!
Shallow embedding of the content-extraction and pagination core of the
lnreader-plugins sources (novelshub.ts, dreamytranslations.ts, and the
JadeScrolls plugin), together with proofs about the claims on chapter-list
ordering, the layered unescape routine, embedded-JSON extraction, redirect
handling, pagination, status mapping, search short-circuits and the
identifier cache.

Strings are modelled as `List Char`; JavaScript `String.prototype.replace`
with a global string pattern is modelled by a structural left-to-right
scanner that, after a match, emits the replacement and continues after the
matched text.  Machine numbers appearing here (ids, chapter indices,
counts) are integral in the sources, so they are modelled as `Nat`/`Int`.
-/

/-- The backslash character, written once to keep the escaping-heavy
definitions below readable. -/
def bsc : Char := '\\'

/-- Test whether `pat` is a prefix of `l` (plain recursive Boolean check). -/
def startsWithList : List Char → List Char → Bool
  | [], _ => true
  | _ :: _, [] => false
  | p :: ps, c :: cs => p == c && startsWithList ps cs

/-- Core of JavaScript `String.replace` with a global string pattern:
scan left to right; on a match emit `repl` and skip the matched characters
(`skip` counts characters still to drop); otherwise copy one character.
Matches never restart inside a replacement, as in JavaScript. -/
def rplAux (pat repl : List Char) : Nat → List Char → List Char
  | _, [] => []
  | s + 1, _ :: cs => rplAux pat repl s cs
  | 0, c :: cs =>
    if startsWithList pat (c :: cs) then
      repl ++ rplAux pat repl (pat.length - 1) cs
    else
      c :: rplAux pat repl 0 cs

/-- JavaScript `text.replace(/pat/g, repl)` for a literal pattern. -/
def replaceAll (pat repl l : List Char) : List Char :=
  rplAux pat repl 0 l

/-- JavaScript `text.replace('pat', repl)` (non-global: first occurrence
only). -/
def replaceFirst (pat repl : List Char) : List Char → List Char
  | [] => []
  | c :: cs =>
    if startsWithList pat (c :: cs) then
      repl ++ cs.drop (pat.length - 1)
    else
      c :: replaceFirst pat repl cs

/-- Decimal digit test, as in the regex class `\d`. -/
def isDigitCh (c : Char) : Bool := '0' ≤ c && c ≤ '9'

/-- Hexadecimal digit test, as in the regex class `[0-9a-fA-F]`. -/
def isHexCh (c : Char) : Bool :=
  ('0' ≤ c && c ≤ '9') || ('a' ≤ c && c ≤ 'f') || ('A' ≤ c && c ≤ 'F')

/-- Numeric value of a hexadecimal digit. -/
def hexVal (c : Char) : Nat :=
  if '0' ≤ c && c ≤ '9' then c.toNat - '0'.toNat
  else if 'a' ≤ c && c ≤ 'f' then c.toNat - 'a'.toNat + 10
  else if 'A' ≤ c && c ≤ 'F' then c.toNat - 'A'.toNat + 10
  else 0

/-- JavaScript `parseInt` on a string of decimal digits. -/
def digitsToNat (l : List Char) : Nat :=
  l.foldl (fun acc c => acc * 10 + (c.toNat - '0'.toNat)) 0

/-- Attempt to decode a `\uXXXX` escape at the front of the list,
returning the decoded character (`String.fromCharCode(parseInt(hex,16))`). -/
def decodeUFront : List Char → Option Char
  | c0 :: c1 :: a :: b :: c :: d :: _ =>
    if c0 = bsc ∧ c1 = 'u' ∧ isHexCh a ∧ isHexCh b ∧ isHexCh c ∧ isHexCh d then
      some (Char.ofNat (((hexVal a * 16 + hexVal b) * 16 + hexVal c) * 16 + hexVal d))
    else none
  | _ => none

/-- The final pass of `unescapeJson`: `.replace(/\\u([0-9a-fA-F]{4})/g, ...)`,
decoding Unicode code-point escapes. -/
def replUAux : Nat → List Char → List Char
  | _, [] => []
  | s + 1, _ :: cs => replUAux s cs
  | 0, c :: cs =>
    match decodeUFront (c :: cs) with
    | some ch => ch :: replUAux 5 cs
    | none => c :: replUAux 0 cs

/-- Unicode-escape decoding pass over a whole string. -/
def replaceUnicode (l : List Char) : List Char := replUAux 0 l

/-- Embedding of `unescapeJson` from dreamytranslations.ts: ten literal
global replacements (double-escaped sequences first, then single-escaped
ones) followed by the `\uXXXX` decoding pass, in source order. -/
def unescapeJson (l : List Char) : List Char :=
  replaceUnicode <|
  replaceAll [bsc, bsc] [bsc] <|
  replaceAll [bsc, '"'] ['"'] <|
  replaceAll [bsc, 't'] ['\t'] <|
  replaceAll [bsc, 'r'] ['\r'] <|
  replaceAll [bsc, 'n'] ['\n'] <|
  replaceAll [bsc, bsc, bsc, bsc] [bsc, bsc] <|
  replaceAll [bsc, bsc, '"'] ['"'] <|
  replaceAll [bsc, bsc, 't'] ['\t'] <|
  replaceAll [bsc, bsc, 'r'] ['\r'] <|
  replaceAll [bsc, bsc, 'n'] ['\n'] l

/-- Modelled from the spec: JSON-string escaping of one character, the
escaping the round-trip sentence of the spec refers to (quotes,
backslashes and the control characters newline, carriage return and tab
get a backslash escape; other printable characters are unchanged).  The
escaping routine itself is not part of the repository sources. -/
def escCh (c : Char) : List Char :=
  if c = '"' then [bsc, '"']
  else if c = bsc then [bsc, bsc]
  else if c = '\n' then [bsc, 'n']
  else if c = '\r' then [bsc, 'r']
  else if c = '\t' then [bsc, 't']
  else [c]

/-- Modelled from the spec: JSON-string escaping of a whole string. -/
def escapeJson (l : List Char) : List Char := l.flatMap escCh

/-- Adjacent-pair occurrence test: `hasAdjPair a b l` holds when `a`
immediately followed by `b` occurs somewhere in `l`. -/
def hasAdjPair (a b : Char) : List Char → Bool
  | [] => false
  | [_] => false
  | x :: y :: t => (x == a && y == b) || hasAdjPair a b (y :: t)

/-- Escape blocks after the `\n`-decoding pass. -/
def escCh1 (c : Char) : List Char :=
  if c = '"' then [bsc, '"']
  else if c = '\r' then [bsc, 'r']
  else if c = '\t' then [bsc, 't']
  else [c]

/-- Escape blocks after the `\n` and `\r` decoding passes. -/
def escCh2 (c : Char) : List Char :=
  if c = '"' then [bsc, '"']
  else if c = '\t' then [bsc, 't']
  else [c]

/-- Escape blocks after the `\n`, `\r` and `\t` decoding passes. -/
def escCh3 (c : Char) : List Char :=
  if c = '"' then [bsc, '"']
  else [c]

/-- Stable insertion modelling JavaScript `Array.prototype.sort` (stable
per the ECMAScript spec) for a comparator-induced strict order `lt`: an
element is inserted before the first entry not strictly below it, so
earlier elements stay before later ones that compare equal. -/
def insertJs {α : Type} (lt : α → α → Bool) (x : α) : List α → List α
  | [] => [x]
  | y :: ys => if lt y x then y :: insertJs lt x ys else x :: y :: ys

/-- Model of JavaScript stable sort with strict order `lt`. -/
def sortJs {α : Type} (lt : α → α → Bool) : List α → List α
  | [] => []
  | x :: xs => insertJs lt x (sortJs lt xs)

/-- First-occurrence filter with an accumulator of already-seen keys:
shared shape of the `seenSlugs` loop in novelshub `searchNovels`, the
`seen` filter in dreamytranslations `popularNovels`, and the
findIndex-based chapter deduplication in dreamytranslations `parseNovel`. -/
def keepFirsts {α β : Type} (f : α → β) [DecidableEq β] (seen : List β) :
    List α → List α
  | [] => []
  | x :: xs =>
    if f x ∈ seen then keepFirsts f seen xs
    else x :: keepFirsts f (f x :: seen) xs

/-- Literal embedding of the JavaScript idiom
`arr.filter((x, idx, self) => self.findIndex(c => f(c) === f(x)) === idx)`
used by dreamytranslations `parseNovel` to deduplicate chapters. -/
def jsUniqueBy {α β : Type} (f : α → β) [DecidableEq β] (l : List α) : List α :=
  (l.enum.filter
      (fun p => l.findIdx (fun c => decide (f c = f p.2)) == p.1)).map (·.2)

/-- The release-status enumeration of `@libs/novelStatus`. -/
inductive NovelStatus
  | Ongoing
  | Completed
  | OnHiatus
  | Cancelled
  | Unknown
deriving DecidableEq, Repr

/-- The uniform listing record (`Plugin.NovelItem`). -/
structure NovelItem where
  name : String
  path : String
  cover : String
deriving DecidableEq, Repr

/-- The uniform chapter record (`Plugin.ChapterItem`). -/
structure ChapterItem where
  name : String
  path : String
  chapterNumber : Option Int
  releaseTime : Option String
deriving DecidableEq, Repr

/-- Placeholder for the external `defaultCover` constant of
`@libs/defaultCover`; its exact URL is outside the repository sources and
no claim depends on its value. -/
def defaultCover : String := "default-cover"

/-- ASCII uppercase, modelling `String.prototype.toUpperCase` on the ASCII
status keywords the plugins compare against. -/
def upAscii (c : Char) : Char :=
  if 'a' ≤ c ∧ c ≤ 'z' then Char.ofNat (c.toNat - 32) else c

def jsToUpper (s : String) : String := String.mk (s.data.map upAscii)

/-- ASCII lowercase, modelling `String.prototype.toLowerCase`. -/
def lowerAscii (c : Char) : Char :=
  if 'A' ≤ c ∧ c ≤ 'Z' then Char.ofNat (c.toNat + 32) else c

def jsToLower (l : List Char) : List Char := l.map lowerAscii

/-- Sort key of the chapter comparator
`(a, b) => (a.chapterNumber || 0) - (b.chapterNumber || 0)`. -/
def chapterKey (c : ChapterItem) : Int := c.chapterNumber.getD 0

/-- The chapter sort shared by novelshub and dreamytranslations
`parseNovel`. -/
def sortChapters (l : List ChapterItem) : List ChapterItem :=
  sortJs (fun a b => decide (chapterKey a < chapterKey b)) l

/-- Consume an exact literal at the front, returning the remainder. -/
def eatLit : List Char → List Char → Option (List Char)
  | [], l => some l
  | _ :: _, [] => none
  | p :: ps, c :: cs => if p = c then eatLit ps cs else none

/-- Maximal nonempty run of characters satisfying `p` at the front
(regex `X+` for a character class `X` followed by a literal outside the
class, where greedy matching without backtracking is exact). -/
def span1 (p : Char → Bool) (l : List Char) : Option (List Char × List Char) :=
  match l.takeWhile p with
  | [] => none
  | r => some (r, l.dropWhile p)

def notBs (c : Char) : Bool := c != bsc

def notBsQuote (c : Char) : Bool := c != bsc && c != '"'

/-- Global regex matching (`String.match` with the `g` flag) driven by a
front matcher returning the matched text: scan left to right, on a match
record it and resume after its end. -/
def scanMatches (front : List Char → Option (List Char)) :
    Nat → List Char → List (List Char)
  | _, [] => []
  | s + 1, _ :: cs => scanMatches front s cs
  | 0, c :: cs =>
    match front (c :: cs) with
    | some m => m :: scanMatches front (m.length - 1) cs
    | none => scanMatches front 0 cs

/-- First regex match (`String.match` without `g`): try the front matcher
at every position, left to right. -/
def findFirstMap {β : Type} (front : List Char → Option β) : List Char → Option β
  | [] => none
  | c :: cs =>
    match front (c :: cs) with
    | some b => some b
    | none => findFirstMap front cs

/-- JavaScript `String.prototype.indexOf` for a substring. -/
def idxOfSub (pat : List Char) : List Char → Option Nat
  | [] => if startsWithList pat [] then some 0 else none
  | c :: cs =>
    if startsWithList pat (c :: cs) then some 0
    else (idxOfSub pat cs).map (· + 1)

/-- JavaScript `String.prototype.includes`. -/
def containsSub (needle : List Char) : List Char → Bool
  | [] => startsWithList needle []
  | c :: cs => startsWithList needle (c :: cs) || containsSub needle cs

/-- The escaped-quote token `\"` of the embedded-JSON patterns. -/
def litQ : List Char := [bsc, '"']

/-- Literal head `\"id\":` of the dreamytranslations anchor pattern. -/
def idLit : List Char := litQ ++ "id".data ++ litQ ++ [':']

/-- Literal `,\"title\":\"` continuing the anchor pattern. -/
def titleSepLit : List Char := [','] ++ litQ ++ "title".data ++ litQ ++ [':'] ++ litQ

/-- Literal `\",\"slug\":\"` continuing the anchor pattern. -/
def slugSepLit : List Char := litQ ++ [','] ++ litQ ++ "slug".data ++ litQ ++ [':'] ++ litQ

/-- Front match of the novel anchor regex of `popularNovels`:
`\\"id\\":\d+,\\"title\\":\\"[^\\]+\\",\\"slug\\":\\"[^\\]+\\"`.
Returns the matched text.  The character classes `\d+` and `[^\\]+` are
each followed by a literal starting outside the class, so maximal munch
is exactly the backtracking regex semantics. -/
def anchorFront (l : List Char) : Option (List Char) :=
  match eatLit idLit l with
  | none => none
  | some r1 =>
    match span1 isDigitCh r1 with
    | none => none
    | some (_, r2) =>
      match eatLit titleSepLit r2 with
      | none => none
      | some r3 =>
        match span1 notBs r3 with
        | none => none
        | some (_, r4) =>
          match eatLit slugSepLit r4 with
          | none => none
          | some r5 =>
            match span1 notBs r5 with
            | none => none
            | some (_, r6) =>
              match eatLit litQ r6 with
              | none => none
              | some r7 => some (l.take (l.length - r7.length))

/-- Capture of `/\\"id\\":(\d+)/`. -/
def idCapFront (l : List Char) : Option (List Char) :=
  match eatLit idLit l with
  | none => none
  | some r => (span1 isDigitCh r).map (·.1)

/-- Capture of `/\\"title\\":\\"([^\\]+)\\"/`. -/
def titleCapFront (l : List Char) : Option (List Char) :=
  match eatLit (litQ ++ "title".data ++ litQ ++ [':'] ++ litQ) l with
  | none => none
  | some r =>
    match span1 notBs r with
    | none => none
    | some (t, r2) =>
      match eatLit litQ r2 with
      | none => none
      | some _ => some t

/-- Capture of `/\\"slug\\":\\"([^\\]+)\\"/`. -/
def slugCapFront (l : List Char) : Option (List Char) :=
  match eatLit (litQ ++ "slug".data ++ litQ ++ [':'] ++ litQ) l with
  | none => none
  | some r =>
    match span1 notBs r with
    | none => none
    | some (t, r2) =>
      match eatLit litQ r2 with
      | none => none
      | some _ => some t

/-- Capture of `/\\"total_chapters\\":(\d+)/`. -/
def totalChaptersCapFront (l : List Char) : Option (List Char) :=
  match eatLit (litQ ++ "total_chapters".data ++ litQ ++ [':']) l with
  | none => none
  | some r => (span1 isDigitCh r).map (·.1)

/-- Capture of `/\\"view_count\\":(\d+)/`. -/
def viewCountCapFront (l : List Char) : Option (List Char) :=
  match eatLit (litQ ++ "view_count".data ++ litQ ++ [':']) l with
  | none => none
  | some r => (span1 isDigitCh r).map (·.1)

/-- Capture of `/\\"last_updated_at\\":\\"([^"\\]+)\\"/`. -/
def lastUpdatedCapFront (l : List Char) : Option (List Char) :=
  match eatLit (litQ ++ "last_updated_at".data ++ litQ ++ [':'] ++ litQ) l with
  | none => none
  | some r =>
    match span1 notBsQuote r with
    | none => none
    | some (t, r2) =>
      match eatLit litQ r2 with
      | none => none
      | some _ => some t

/-- Capture of `/\\"cover\\":\\"(https:[^"\\]+)\\"/`. -/
def coverCapFront (l : List Char) : Option (List Char) :=
  match eatLit (litQ ++ "cover".data ++ litQ ++ [':'] ++ litQ ++ "https:".data) l with
  | none => none
  | some r =>
    match span1 notBsQuote r with
    | none => none
    | some (t, r2) =>
      match eatLit litQ r2 with
      | none => none
      | some _ => some ("https:".data ++ t)

/-- One decoded record of the embedded-mode extraction loop of
dreamytranslations `popularNovels`. -/
structure DreamyRec where
  id : List Char
  title : List Char
  slug : List Char
  cover : List Char
  totalChapters : Nat
  viewCount : Nat
  lastUpdatedAt : List Char
deriving DecidableEq, Repr

/-- Fallback cover URL built from the record id. -/
def dreamyCoverDefault (id : List Char) : List Char :=
  "https://supabase.dreamy-translations.com/storage/v1/object/public/covers/".data
    ++ id ++ "/cover.jpeg".data

/-- Body of the extraction loop of `popularNovels` for one anchor match
`m`: re-match the id, title and slug inside `m` (skipping the record if
any is missing), open the 2000-character look-ahead window at
`body.indexOf(m)`, and search it for the secondary fields. -/
def dreamyRecOfMatch (body m : List Char) : Option DreamyRec :=
  match findFirstMap idCapFront m, findFirstMap titleCapFront m,
      findFirstMap slugCapFront m with
  | some idD, some titleD, some slugD =>
    let idx := (idxOfSub m body).getD 0
    let window := (body.drop idx).take 2000
    let total :=
      match findFirstMap totalChaptersCapFront window with
      | some d => digitsToNat d
      | none => 0
    let views :=
      match findFirstMap viewCountCapFront window with
      | some d => digitsToNat d
      | none => 0
    let updated :=
      match findFirstMap lastUpdatedCapFront window with
      | some u => u
      | none => []
    let cover :=
      match findFirstMap coverCapFront window with
      | some cv => replaceAll [bsc, '/'] ['/'] cv
      | none => dreamyCoverDefault idD
    some { id := idD, title := unescapeJson titleD, slug := slugD,
           cover := cover, totalChapters := total, viewCount := views,
           lastUpdatedAt := updated }
  | _, _, _ => none

/-- The embedded-mode decoder of dreamytranslations `popularNovels`
(lines 67-103): all anchor matches, each decoded into a record. -/
def dreamyExtractNovels (body : List Char) : List DreamyRec :=
  (scanMatches anchorFront 0 body).filterMap (dreamyRecOfMatch body)

/-- The opening-brace character of the chapter-entry pattern. -/
def lcurly : Char := Char.ofNat 123

/-- Front match of the chapter-entry regex of dreamytranslations
`parseNovel`:
`\{\\"id\\":\d+,\\"title\\":\\"[^\\]+\\",\\"slug\\":\\"[^\\]+\\",\\"index\\":\d+,\\"free\\":(true|false),\\"status\\":\\"[^\\]+\\"`. -/
def entryFront (l : List Char) : Option (List Char) :=
  match eatLit (lcurly :: idLit) l with
  | none => none
  | some r1 =>
    match span1 isDigitCh r1 with
    | none => none
    | some (_, r2) =>
      match eatLit titleSepLit r2 with
      | none => none
      | some r3 =>
        match span1 notBs r3 with
        | none => none
        | some (_, r4) =>
          match eatLit slugSepLit r4 with
          | none => none
          | some r5 =>
            match span1 notBs r5 with
            | none => none
            | some (_, r6) =>
              match eatLit (litQ ++ [','] ++ litQ ++ "index".data ++ litQ ++ [':']) r6 with
              | none => none
              | some r7 =>
                match span1 isDigitCh r7 with
                | none => none
                | some (_, r8) =>
                  match eatLit ([','] ++ litQ ++ "free".data ++ litQ ++ [':']) r8 with
                  | none => none
                  | some r9 =>
                    match (eatLit "true".data r9).orElse (fun _ => eatLit "false".data r9) with
                    | none => none
                    | some r10 =>
                      match eatLit ([','] ++ litQ ++ "status".data ++ litQ ++ [':'] ++ litQ) r10 with
                      | none => none
                      | some r11 =>
                        match span1 notBs r11 with
                        | none => none
                        | some (_, r12) =>
                          match eatLit litQ r12 with
                          | none => none
                          | some r13 => some (l.take (l.length - r13.length))

/-- Capture of `/\\"index\\":(\d+)/`. -/
def indexCapFront (l : List Char) : Option (List Char) :=
  match eatLit (litQ ++ "index".data ++ litQ ++ [':']) l with
  | none => none
  | some r => (span1 isDigitCh r).map (·.1)

/-- Capture of `/\\"status\\":\\"([^\\]+)\\"/`. -/
def statusCapFront (l : List Char) : Option (List Char) :=
  match eatLit (litQ ++ "status".data ++ litQ ++ [':'] ++ litQ) l with
  | none => none
  | some r =>
    match span1 notBs r with
    | none => none
    | some (t, r2) =>
      match eatLit litQ r2 with
      | none => none
      | some _ => some t

/-- Front match of `/\\"chapterIndex\\":\d+/` (whole match). -/
def chapterIndexFront (l : List Char) : Option (List Char) :=
  match eatLit (litQ ++ "chapterIndex".data ++ litQ ++ [':']) l with
  | none => none
  | some r =>
    match span1 isDigitCh r with
    | none => none
    | some (_, rest) => some (l.take (l.length - rest.length))

/-- Capture of `/(\d+)/`: first digit run. -/
def digitRunFront (l : List Char) : Option (List Char) :=
  (span1 isDigitCh l).map (·.1)

/-- Illustration chapter indices collected from the
`\\"chapterIndex\\":\d+` matches of the page body. -/
def dreamyIllustIdx (body : List Char) : List Nat :=
  (scanMatches chapterIndexFront 0 body).filterMap
    (fun m => (findFirstMap digitRunFront m).map digitsToNat)

def isSpaceCh (c : Char) : Bool :=
  c == ' ' || c == '\t' || c == '\n' || c == '\r'

def dropTrailingSpaces (l : List Char) : List Char :=
  (l.reverse.dropWhile isSpaceCh).reverse

/-- JavaScript `title.replace(/\s*\(Illustration\)\s*$/i, '')`: remove one
trailing, case-insensitive `(Illustration)` tag together with the
whitespace around it. -/
def stripIllustrationTag (l : List Char) : List Char :=
  let t := dropTrailingSpaces l
  let tag := "(illustration)".data
  if ((t.reverse.take tag.length).reverse.map lowerAscii) = tag then
    dropTrailingSpaces (t.take (t.length - tag.length))
  else l

/-- Loop body of the chapter extraction of dreamytranslations
`parseNovel` for one entry match: re-match title, index and status inside
the entry (skipping it if any is missing), keep only published chapters,
and build the chapter record with illustration icon and cleaned title. -/
def dreamyChapterOfEntry (illust : List Nat) (novelSlug : List Char)
    (e : List Char) : Option ChapterItem :=
  match findFirstMap titleCapFront e, findFirstMap indexCapFront e,
      findFirstMap statusCapFront e with
  | some t, some idxD, some st =>
    let index := digitsToNat idxD
    if st = "published".data then
      let icon : List Char := if index ∈ illust then "🖼️ ".data else []
      let clean := stripIllustrationTag (unescapeJson t)
      some { name := String.mk (icon ++ "Chapter ".data ++ (toString index).data
               ++ ": ".data ++ clean),
             path := String.mk ("novel/".data ++ novelSlug ++ "/chapter/".data
               ++ (toString index).data),
             chapterNumber := some (index : Int),
             releaseTime := none }
    else none
  | _, _, _ => none

/-- Chapter list of dreamytranslations `parseNovel` before deduplication
and sorting, in body order. -/
def dreamyRawChapters (body : List Char) (novelPath : String) : List ChapterItem :=
  let novelSlug := replaceFirst "novel/".data [] novelPath.data
  let illust := dreamyIllustIdx body
  (scanMatches entryFront 0 body).filterMap (dreamyChapterOfEntry illust novelSlug)

/-- The fields of the dreamytranslations `parseNovel` result the claims
are about: the release status (set unconditionally) and the deduplicated,
sorted chapter list. -/
structure DreamyNovelRes where
  status : NovelStatus
  chapters : List ChapterItem
deriving Repr

/-- Embedding of dreamytranslations `parseNovel`: status is hardcoded
`NovelStatus.Ongoing` (line 201 of the source) and chapters are the raw
extraction deduplicated by `chapterNumber` (first occurrence kept, via the
findIndex filter) and then sorted by the chapter-number comparator. -/
def dreamyParseNovel (body : List Char) (novelPath : String) : DreamyNovelRes :=
  { status := NovelStatus.Ongoing,
    chapters := sortChapters
      (jsUniqueBy (fun c => c.chapterNumber) (dreamyRawChapters body novelPath)) }

/-- The five entity replacements of `decodeHtmlEntities`, in source
order. -/
def decodeHtmlEntities (l : List Char) : List Char :=
  replaceAll "&gt;".data ['>'] <|
  replaceAll "&lt;".data ['<'] <|
  replaceAll "&amp;".data ['&'] <|
  replaceAll "&quot;".data ['"'] <|
  replaceAll "&#x27;".data [Char.ofNat 39] l

def dreamyNovelItemOf (r : DreamyRec) : NovelItem :=
  { name := String.mk (decodeHtmlEntities r.title),
    path := String.mk ("novel/".data ++ r.slug),
    cover := String.mk r.cover }

/-- Embedding of dreamytranslations `popularNovels` in the configuration
reached from `searchNovels` (default filters: sort by title, not
illustrated-only, not latest), which needs no illustration-count fetch:
any page other than 1 yields no result and no fetch; page 1 issues one
fetch, extracts the embedded records, keeps the first record per slug and
sorts with the `localeCompare` comparator `cmp` (external collation,
passed as a parameter).  The second component counts fetches. -/
def dreamyPopularNovels (cmp : List Char → List Char → Int) (pageNo : Nat)
    (body : List Char) : List NovelItem × Nat :=
  if pageNo ≠ 1 then ([], 0)
  else
    let uniq := keepFirsts (fun r => r.slug) [] (dreamyExtractNovels body)
    let sorted := sortJs (fun a b => decide (cmp a.title b.title < 0)) uniq
    (sorted.map dreamyNovelItemOf, 1)

/-- Embedding of dreamytranslations `searchNovels`: pages other than 1
return nothing without fetching; page 1 delegates to `popularNovels` and
filters by case-insensitive title containment. -/
def dreamySearchNovels (cmp : List Char → List Char → Int) (body : List Char)
    (searchTerm : String) (pageNo : Nat) : List NovelItem × Nat :=
  if pageNo ≠ 1 then ([], 0)
  else
    let r := dreamyPopularNovels cmp 1 body
    (r.1.filter (fun n => containsSub (jsToLower searchTerm.data) (jsToLower n.name.data)),
      r.2)

/-- Embedding of novelshub `parseStatus`. -/
def parseStatus (status : Option String) : NovelStatus :=
  match status with
  | none => NovelStatus.Unknown
  | some s =>
    let u := jsToUpper s
    if u = "ONGOING" then NovelStatus.Ongoing
    else if u = "COMPLETED" then NovelStatus.Completed
    else if u = "HIATUS" then NovelStatus.OnHiatus
    else NovelStatus.Unknown

/-- Raw chapter record of the novelshub chapters endpoint. -/
structure NhChapterRaw where
  slug : String
  number : Int
  title : String
  createdAt : String
  isLockedByCoins : Bool
  contentHasImages : Bool
deriving DecidableEq, Repr

/-- Mapping of one raw novelshub chapter to a `ChapterItem`, with lock and
illustration indicators in the display name. -/
def nhChapterItem (novelSlug : String) (ch : NhChapterRaw) : ChapterItem :=
  let lock := if ch.isLockedByCoins then "🔒" else ""
  let illus := if ch.contentHasImages then "🖼️" else ""
  let nm :=
    if ch.title = "" then lock ++ illus ++ " Chapter " ++ toString ch.number
    else lock ++ illus ++ " Chapter " ++ toString ch.number ++ ": " ++ ch.title
  { name := nm, path := "series/" ++ novelSlug ++ "/" ++ ch.slug,
    chapterNumber := some ch.number, releaseTime := some ch.createdAt }

/-- One response of the novelshub chapters endpoint; both fields are
optional as in `chaptersData.totalChapterCount || 0` and
`chaptersData.post?.chapters || []`. -/
structure NhChaptersResp where
  totalChapterCount : Option Nat
  chapters : Option (List NhChapterRaw)

/-- The do-while skip/take loop of novelshub `parseNovel` (lines 130-158):
fetch with the current `skip`, append the mapped chapters, advance by the
fixed batch size 999, and continue while `skip < totalChapterCount` as
reported by the last response.  `env` maps a skip offset to the response;
`fuel` makes the (potentially unbounded) loop total, `none` meaning the
fuel ran out; the `Nat` result counts fetches. -/
def nhChapterLoop (novelSlug : String) (env : Nat → NhChaptersResp) :
    Nat → Nat → List ChapterItem → Nat → Option (List ChapterItem × Nat)
  | 0, _, _, _ => none
  | fuel + 1, skip, acc, count =>
    let resp := env skip
    let total := resp.totalChapterCount.getD 0
    let acc' := acc ++ (resp.chapters.getD []).map (nhChapterItem novelSlug)
    let skip' := skip + 999
    let count' := count + 1
    if skip' < total then nhChapterLoop novelSlug env fuel skip' acc' count'
    else some (acc', count')

/-- Chapter-list part of novelshub `parseNovel`: run the skip/take loop
from `skip = 0`, then sort by the chapter-number comparator (the source
sorts but never deduplicates). -/
def nhParseNovelChapters (novelSlug : String) (env : Nat → NhChaptersResp)
    (fuel : Nat) : Option (List ChapterItem × Nat) :=
  (nhChapterLoop novelSlug env fuel 0 [] 0).map (fun p => (sortChapters p.1, p.2))

/-- Raw listing record of the novelshub query endpoint. -/
structure NhNovel where
  slug : String
  postTitle : String
  featuredImage : String
  isNovel : Bool
deriving DecidableEq, Repr

def nhNovelItem (p : NhNovel) : NovelItem :=
  { name := p.postTitle, path := "series/" ++ p.slug,
    cover := if p.featuredImage = "" then defaultCover else p.featuredImage }

/-- Result loop of novelshub `popularNovels` (lines 81-94): keep the
records flagged as novels, in order, with no slug deduplication. -/
def nhPopularList (posts : List NhNovel) : List NovelItem :=
  (posts.filter (·.isNovel)).map nhNovelItem

/-- Result loop of novelshub `searchNovels` (lines 209-226): skip
non-novel records and records whose slug was already seen. -/
def nhSearchGo (seen : List String) : List NhNovel → List NovelItem
  | [] => []
  | p :: ps =>
    if p.isNovel = false then nhSearchGo seen ps
    else if p.slug ∈ seen then nhSearchGo seen ps
    else nhNovelItem p :: nhSearchGo (p.slug :: seen) ps

/-- Embedding of novelshub `searchNovels`: pages after the first return
an empty list before any request; otherwise one query fetch is issued
(`data.posts || []`).  The `Nat` counts fetches. -/
def nhSearchNovels (pageNo : Nat) (posts : Option (List NhNovel)) :
    List NovelItem × Nat :=
  if 1 < pageNo then ([], 0)
  else (nhSearchGo [] (posts.getD []), 1)

/-- The parts of an HTTP response `fetchJson` inspects: status, the
`location` and `content-length` headers, and the body text. -/
structure HttpResponse where
  status : Nat
  location : Option String
  contentLength : Option String
  bodyText : String

/-- Non-redirect tail of the JadeScrolls `fetchJson`: a 304 status or a
`content-length` of `'0'` yields the empty object, an empty body yields
the empty object, and otherwise the body is handed to `JSON.parse`
(modelled by the `parse` parameter; `none` means the parse throws, which
`fetchJson` does not catch). -/
def fetchBody {J : Type} (emptyObj : J) (parse : String → Option J)
    (res : HttpResponse) : Except String J :=
  if res.status = 304 ∨ res.contentLength = some "0" then Except.ok emptyObj
  else if res.bodyText = "" then Except.ok emptyObj
  else
    match parse res.bodyText with
    | some j => Except.ok j
    | none => Except.error "JSON.parse"

/-- Embedding of the JadeScrolls `fetchJson` (lines 9-25): on a 3xx status
with a `location` header it calls itself on the new URL with no hop
counter of any kind; `fuel` makes the recursion total in Lean, `none`
meaning the fuel ran out (the source would still be recursing). -/
def fetchJson {J : Type} (emptyObj : J) (parse : String → Option J)
    (env : String → HttpResponse) : Nat → String → Option (Except String J)
  | 0, _ => none
  | fuel + 1, url =>
    let res := env url
    if 300 ≤ res.status ∧ res.status < 400 then
      match res.location with
      | some loc => fetchJson emptyObj parse env fuel loc
      | none => some (fetchBody emptyObj parse res)
    else some (fetchBody emptyObj parse res)

/-- The `releaseStatusMap` table of the JadeScrolls plugin. -/
def releaseStatusMap : List (String × NovelStatus) :=
  [("COMPLETED", NovelStatus.Completed), ("ONGOING", NovelStatus.Ongoing),
   ("HIATUS", NovelStatus.OnHiatus), ("DROPPED", NovelStatus.Cancelled)]

/-- Status lookup of JadeScrolls `parseNovel`:
`releaseStatusMap[novel.metadata?.release_status] || NovelStatus.Unknown`. -/
def jadeStatus (s : Option String) : NovelStatus :=
  match s with
  | none => NovelStatus.Unknown
  | some k =>
    match (releaseStatusMap.find? (fun p => p.1 == k)).map (·.2) with
    | some v => v
    | none => NovelStatus.Unknown

/-- Raw chapter record of the JadeScrolls chapters endpoint (the fields
`mapChapters` reads). -/
structure JadeChapterRec where
  id : String
  title : String
  publish_at : String
  type : String
  chapter_number : Int
deriving DecidableEq, Repr

/-- Embedding of JadeScrolls `mapChapters` (lines 181-193): keep the FREE
chapters, in upstream order, and map them to chapter records keyed by
`novelId/chapterId`. -/
def jadeMapChapters (chapters : List JadeChapterRec) (novelId : String) :
    List ChapterItem :=
  (chapters.filter (fun ch => ch.type == "FREE")).map (fun ch =>
    { name := ch.title, path := novelId ++ "/" ++ ch.id,
      releaseTime := some ch.publish_at,
      chapterNumber := some ch.chapter_number })

/-- One network request of JadeScrolls `parsePage`: either the detail
fetch `/novels?slug=...` or the chapter-page fetch. -/
inductive JadeFetch
  | detail (slug : String)
  | chapterList (novelId : String) (page : String)
deriving DecidableEq, Repr

/-- Lookup in the session identifier cache `novelIdCache`. -/
def lookupCache (cache : List (String × String)) (path : String) : Option String :=
  (cache.find? (fun p => p.1 == path)).map (·.2)

/-- Embedding of JadeScrolls `parsePage` (lines 162-179).  The JavaScript
guard `if (!novelId)` treats both an absent cache entry and an
empty-string id as a miss; on a miss the detail fetch resolves the id and
stores it in the cache.  `detailEnv` gives the id returned by the detail
fetch for a slug and `chapEnv` the chapter records of a chapter-page
fetch; the result carries the chapters, the new cache, and the issued
requests in order. -/
def jadeParsePage (detailEnv : String → String)
    (chapEnv : String → String → List JadeChapterRec)
    (cache : List (String × String)) (novelPath page : String) :
    List ChapterItem × List (String × String) × List JadeFetch :=
  match lookupCache cache novelPath with
  | some v =>
    if v = "" then
      let id := detailEnv novelPath
      (jadeMapChapters (chapEnv id page) id, (novelPath, id) :: cache,
        [JadeFetch.detail novelPath, JadeFetch.chapterList id page])
    else
      (jadeMapChapters (chapEnv v page) v, cache, [JadeFetch.chapterList v page])
  | none =>
    let id := detailEnv novelPath
    (jadeMapChapters (chapEnv id page) id, (novelPath, id) :: cache,
      [JadeFetch.detail novelPath, JadeFetch.chapterList id page])

/-- Raw record of the JadeScrolls search endpoint. -/
structure JadeSearchRec where
  title : String
  slug : String
  cover_image : String
deriving DecidableEq, Repr

/-- Embedding of JadeScrolls `searchNovels` (lines 212-232): pages after
the first return an empty list before any request; otherwise one search
fetch is issued (`json.novels || []`).  The `Nat` counts fetches. -/
def jadeSearchNovels (pageNo : Nat) (novels : Option (List JadeSearchRec)) :
    List NovelItem × Nat :=
  if 1 < pageNo then ([], 0)
  else
    ((novels.getD []).map (fun n =>
        { name := n.title, path := n.slug, cover := n.cover_image }), 1)

/-- Chapters response carrying two records with the same chapter number 5
and a total within one batch. -/
def nhDupEnv : Nat → NhChaptersResp := fun _ =>
  { totalChapterCount := some 2,
    chapters := some
      [{ slug := "a", number := 5, title := "A", createdAt := "t1",
         isLockedByCoins := false, contentHasImages := false },
       { slug := "b", number := 5, title := "B", createdAt := "t2",
         isLockedByCoins := false, contentHasImages := false }] }

/-- The novelshub chapter result on `nhDupEnv`, taken from the model
itself so the witness hypothesis is discharged by evaluation. -/
def nhDupOut : List ChapterItem × Nat :=
  (nhParseNovelChapters "s" nhDupEnv 1).getD ([], 0)

/-- Dreamytranslations page body with four chapter entries: indices 4, 2,
4 (duplicate) and a draft, plus an illustration marker for index 4. -/
def dreamyChBody : List Char :=
  ("\x7b\\\"id\\\":11,\\\"title\\\":\\\"Beta (Illustration)\\\",\\\"slug\\\":\\\"be\\\",\\\"index\\\":4,\\\"free\\\":true,\\\"status\\\":\\\"published\\\","
    ++ "\x7b\\\"id\\\":12,\\\"title\\\":\\\"Alpha\\\",\\\"slug\\\":\\\"al\\\",\\\"index\\\":2,\\\"free\\\":false,\\\"status\\\":\\\"published\\\","
    ++ "\x7b\\\"id\\\":13,\\\"title\\\":\\\"Gamma\\\",\\\"slug\\\":\\\"ga\\\",\\\"index\\\":4,\\\"free\\\":true,\\\"status\\\":\\\"published\\\","
    ++ "\x7b\\\"id\\\":14,\\\"title\\\":\\\"Draft\\\",\\\"slug\\\":\\\"dr\\\",\\\"index\\\":9,\\\"free\\\":true,\\\"status\\\":\\\"draft\\\","
    ++ "\\\"chapterIndex\\\":4").data

/-- The C3 fixture body: anchor with id 7, the title `A\\nB` (an escaped
newline: the characters A, backslash, backslash, n, B), slug `a-b`, and
`\"total_chapters\":3` inside the look-ahead window. -/
def dreamyFixtureEscTitle : List Char :=
  ("\\\"id\\\":7,\\\"title\\\":\\\"A\\\\\\\\nB\\\",\\\"slug\\\":\\\"a-b\\\",\\\"total_chapters\\\":3").data

/-- The same fixture with the backslash-free title `AB`. -/
def dreamyFixturePlain : List Char :=
  ("\\\"id\\\":7,\\\"title\\\":\\\"AB\\\",\\\"slug\\\":\\\"a-b\\\",\\\"total_chapters\\\":3").data

/-- Transport environment in which every URL answers 301 with a
`location` header pointing back to itself: a redirect loop. -/
def redirectLoopEnv : String → HttpResponse := fun url =>
  { status := 301, location := some url, contentLength := none, bodyText := "" }

/-- First chapters response reporting a total of zero while still
carrying one chapter record. -/
def nhZeroTotalEnv : Nat → NhChaptersResp := fun _ =>
  { totalChapterCount := some 0,
    chapters := some [{ slug := "a", number := 1, title := "A", createdAt := "t",
                        isLockedByCoins := false, contentHasImages := false }] }

/-- Environment whose first response is fully empty with total zero. -/
def nhEmptyEnv : Nat → NhChaptersResp := fun _ =>
  { totalChapterCount := some 0, chapters := some [] }

/-- Environment for the C8 counterexample: URL `a` answers 304 WITH a
`location` header pointing at `b`; `b` answers 200 with body `1`. -/
def c8Env : String → HttpResponse := fun url =>
  if url = "a" then
    { status := 304, location := some "b", contentLength := none, bodyText := "" }
  else
    { status := 200, location := none, contentLength := none, bodyText := "1" }

/-- Parse collaborator for the C8 statements: only the body `1` is valid
JSON (value 1); everything else throws. -/
def c8Parse : String → Option Nat := fun s => if s = "1" then some 1 else none

/-- Environment for the C8 witness: four URLs exercising the four amended
conjuncts. -/
def c8WitEnv : String → HttpResponse := fun url =>
  if url = "w304" then
    { status := 304, location := none, contentLength := none, bodyText := "x" }
  else if url = "wlen" then
    { status := 200, location := none, contentLength := some "0", bodyText := "x" }
  else if url = "wempty" then
    { status := 200, location := none, contentLength := none, bodyText := "" }
  else
    { status := 200, location := none, contentLength := none, bodyText := "??" }

/-- Two upstream search records sharing the slug `s`, both novels. -/
def nhDupPosts : List NhNovel :=
  [{ slug := "s", postTitle := "One", featuredImage := "", isNovel := true },
   { slug := "s", postTitle := "Two", featuredImage := "", isNovel := true }]

theorem startsWithList_head {p c : Char} {ps cs : List Char}
    (h : startsWithList (p :: ps) (c :: cs) = true) : p = c := by
  simp [startsWithList, Bool.and_eq_true] at h
  exact h.1

theorem startsWithList_second {p q c : Char} {ps cs : List Char}
    (h : startsWithList (p :: q :: ps) (c :: cs) = true) :
    ∃ d ds, cs = d :: ds ∧ q = d := by
  cases cs with
  | nil => simp [startsWithList] at h
  | cons d ds =>
    refine ⟨d, ds, rfl, ?_⟩
    simp [startsWithList, Bool.and_eq_true] at h
    exact h.2.1

/-- A global replacement whose pattern starts with a character absent from
the input leaves the input unchanged. -/
theorem rplAux_id_of_not_mem {a : Char} {ps repl l : List Char}
    (h : a ∉ l) : rplAux (a :: ps) repl 0 l = l := by
  induction l with
  | nil => rfl
  | cons c cs ih =>
    have hac : a ≠ c := fun e => h (e ▸ List.mem_cons_self c cs)
    have hsw : startsWithList (a :: ps) (c :: cs) = false := by
      cases hq : startsWithList (a :: ps) (c :: cs) with
      | false => rfl
      | true => exact absurd (startsWithList_head hq) hac
    have hcs : a ∉ cs := fun e => h (List.mem_cons_of_mem _ e)
    simp [rplAux, hsw, ih hcs]

theorem replaceAll_id_of_not_mem {a : Char} {ps repl l : List Char}
    (h : a ∉ l) : replaceAll (a :: ps) repl l = l :=
  rplAux_id_of_not_mem h

theorem hasAdjPair_tail {a b c : Char} {cs : List Char}
    (h : hasAdjPair a b (c :: cs) = false) : hasAdjPair a b cs = false := by
  cases cs with
  | nil => rfl
  | cons d ds =>
    simp [hasAdjPair, Bool.or_eq_false_iff] at h
    exact h.2

/-- A global replacement whose pattern starts with the two characters
`a`, `b` leaves any input without an adjacent `a b` pair unchanged. -/
theorem rplAux_id_of_no_adj {a b : Char} {ps repl l : List Char}
    (h : hasAdjPair a b l = false) : rplAux (a :: b :: ps) repl 0 l = l := by
  induction l with
  | nil => rfl
  | cons c cs ih =>
    have hsw : startsWithList (a :: b :: ps) (c :: cs) = false := by
      cases hq : startsWithList (a :: b :: ps) (c :: cs) with
      | false => rfl
      | true =>
        obtain ⟨d, ds, rfl, hbd⟩ := startsWithList_second hq
        have hac := startsWithList_head hq
        subst hac; subst hbd
        simp [hasAdjPair] at h
    simp [rplAux, hsw, ih (hasAdjPair_tail h)]

/-- Block step: a two-character pattern `[a, w]` matching at the front is
replaced and scanning resumes after it. -/
theorem rplAux_two_hit (a w : Char) (repl z : List Char) :
    rplAux [a, w] repl 0 (a :: w :: z) = repl ++ rplAux [a, w] repl 0 z := by
  have hsw : startsWithList [a, w] (a :: w :: z) = true := by
    simp [startsWithList]
  simp [rplAux, hsw]

/-- Block step: a two-character block `[a, x]` with `x ≠ w` and `x ≠ a`
is copied verbatim by the pattern `[a, w]`. -/
theorem rplAux_two_miss {a w x : Char} (repl z : List Char)
    (hxw : x ≠ w) (hxa : x ≠ a) :
    rplAux [a, w] repl 0 (a :: x :: z) = a :: x :: rplAux [a, w] repl 0 z := by
  have h1 : startsWithList [a, w] (a :: x :: z) = false := by
    simp [startsWithList, Ne.symm hxw]
  have h2 : startsWithList [a, w] (x :: z) = false := by
    cases hq : startsWithList [a, w] (x :: z) with
    | false => rfl
    | true => exact absurd (startsWithList_head hq).symm hxa
  simp [rplAux, h1, h2]

/-- Block step: a single character different from the pattern head is
copied verbatim. -/
theorem rplAux_one_miss {a c : Char} (ps repl : List Char) (z : List Char)
    (hca : c ≠ a) :
    rplAux (a :: ps) repl 0 (c :: z) = c :: rplAux (a :: ps) repl 0 z := by
  have h1 : startsWithList (a :: ps) (c :: z) = false := by
    cases hq : startsWithList (a :: ps) (c :: z) with
    | false => rfl
    | true => exact absurd (startsWithList_head hq).symm hca
  simp [rplAux, h1]

/-- Homomorphism step: if a string transformation `F` consumes the block
`g c` of every character `c` of `l` into `h c`, then it maps the
block-concatenation of `l` under `g` to the one under `h`. -/
theorem flatMap_step (F : List Char → List Char) (g h : Char → List Char)
    (l : List Char) (hnil : F [] = [])
    (hblock : ∀ c ∈ l, ∀ z, F (g c ++ z) = h c ++ F z) :
    F (l.flatMap g) = l.flatMap h := by
  induction l with
  | nil => simpa using hnil
  | cons c cs ih =>
    have hc := hblock c (List.mem_cons_self c cs)
    have ih' := ih (fun d hd z => hblock d (List.mem_cons_of_mem _ hd) z)
    simp only [List.flatMap_cons]
    rw [hc, ih']

theorem hasAdjPair_cons_ne {a b x : Char} (r : List Char) (hx : x ≠ a) :
    hasAdjPair a b (x :: r) = hasAdjPair a b r := by
  cases r with
  | nil => simp [hasAdjPair]
  | cons y t => simp [hasAdjPair, hx]

theorem hasAdjPair_bsc_block {x : Char} (r : List Char) (hx : x ≠ bsc) :
    hasAdjPair bsc bsc (bsc :: x :: r) = hasAdjPair bsc bsc (x :: r) := by
  simp [hasAdjPair, hx]

/-- Escaping a backslash-free string never creates two adjacent
backslashes. -/
theorem no_adj_escape (l : List Char) (h : bsc ∉ l) :
    hasAdjPair bsc bsc (l.flatMap escCh) = false := by
  induction l with
  | nil => rfl
  | cons c cs ih =>
    have hc : c ≠ bsc := fun e => h (by simp [e])
    have htl := ih (fun e => h (List.mem_cons_of_mem _ e))
    simp only [List.flatMap_cons]
    by_cases h1 : c = '"'
    · subst h1
      rw [show escCh '"' = [bsc, '"'] from rfl, List.cons_append, List.cons_append,
        List.nil_append, hasAdjPair_bsc_block _ (by decide),
        hasAdjPair_cons_ne _ (by decide)]
      exact htl
    · by_cases h2 : c = '\n'
      · subst h2
        rw [show escCh '\n' = [bsc, 'n'] from rfl, List.cons_append, List.cons_append,
          List.nil_append, hasAdjPair_bsc_block _ (by decide),
          hasAdjPair_cons_ne _ (by decide)]
        exact htl
      · by_cases h3 : c = '\r'
        · subst h3
          rw [show escCh '\r' = [bsc, 'r'] from rfl, List.cons_append, List.cons_append,
            List.nil_append, hasAdjPair_bsc_block _ (by decide),
            hasAdjPair_cons_ne _ (by decide)]
          exact htl
        · by_cases h4 : c = '\t'
          · subst h4
            rw [show escCh '\t' = [bsc, 't'] from rfl, List.cons_append, List.cons_append,
              List.nil_append, hasAdjPair_bsc_block _ (by decide),
              hasAdjPair_cons_ne _ (by decide)]
            exact htl
          · have he : escCh c = [c] := by simp [escCh, h1, hc, h2, h3, h4]
            rw [he, List.cons_append, List.nil_append, hasAdjPair_cons_ne _ hc]
            exact htl

theorem flatMap_singleton_id (l : List Char) : (l.flatMap fun c => [c]) = l := by
  induction l with
  | nil => rfl
  | cons c cs ih => simp [List.flatMap_cons, ih]

theorem decodeUFront_none {c : Char} (cs : List Char) (h : c ≠ bsc) :
    decodeUFront (c :: cs) = none := by
  rcases cs with _ | ⟨c1, _ | ⟨a, _ | ⟨b, _ | ⟨d, _ | ⟨e, t⟩⟩⟩⟩⟩ <;>
    simp [decodeUFront, h]

theorem replaceUnicode_id {l : List Char} (h : bsc ∉ l) :
    replaceUnicode l = l := by
  show replUAux 0 l = l
  induction l with
  | nil => rfl
  | cons c cs ih =>
    have hc : c ≠ bsc := fun e => h (by simp [e])
    have htl := ih (fun e => h (List.mem_cons_of_mem _ e))
    simp [replUAux, decodeUFront_none cs hc, htl]

/-- A backslash-free string is a fixed point of `unescapeJson`. -/
theorem unescapeJson_id {l : List Char} (h : bsc ∉ l) :
    unescapeJson l = l := by
  unfold unescapeJson
  rw [show ∀ x, replaceAll [bsc, bsc, 'n'] ['\n'] x = rplAux _ _ 0 x from fun _ => rfl,
    rplAux_id_of_not_mem h]
  rw [show ∀ x, replaceAll [bsc, bsc, 'r'] ['\r'] x = rplAux _ _ 0 x from fun _ => rfl,
    rplAux_id_of_not_mem h]
  rw [show ∀ x, replaceAll [bsc, bsc, 't'] ['\t'] x = rplAux _ _ 0 x from fun _ => rfl,
    rplAux_id_of_not_mem h]
  rw [show ∀ x, replaceAll [bsc, bsc, '"'] ['"'] x = rplAux _ _ 0 x from fun _ => rfl,
    rplAux_id_of_not_mem h]
  rw [show ∀ x, replaceAll [bsc, bsc, bsc, bsc] [bsc, bsc] x = rplAux _ _ 0 x from fun _ => rfl,
    rplAux_id_of_not_mem h]
  rw [show ∀ x, replaceAll [bsc, 'n'] ['\n'] x = rplAux _ _ 0 x from fun _ => rfl,
    rplAux_id_of_not_mem h]
  rw [show ∀ x, replaceAll [bsc, 'r'] ['\r'] x = rplAux _ _ 0 x from fun _ => rfl,
    rplAux_id_of_not_mem h]
  rw [show ∀ x, replaceAll [bsc, 't'] ['\t'] x = rplAux _ _ 0 x from fun _ => rfl,
    rplAux_id_of_not_mem h]
  rw [show ∀ x, replaceAll [bsc, '"'] ['"'] x = rplAux _ _ 0 x from fun _ => rfl,
    rplAux_id_of_not_mem h]
  rw [show ∀ x, replaceAll [bsc, bsc] [bsc] x = rplAux _ _ 0 x from fun _ => rfl,
    rplAux_id_of_not_mem h]
  exact replaceUnicode_id h

theorem insertJs_perm {α : Type} (lt : α → α → Bool) (x : α) (l : List α) :
    (insertJs lt x l).Perm (x :: l) := by
  induction l with
  | nil => exact List.Perm.refl _
  | cons y ys ih =>
    by_cases h : lt y x = true
    · simp only [insertJs, h, if_true]
      exact ((ih.cons y).trans (List.Perm.swap x y ys))
    · simp only [insertJs, h, if_false]
      exact List.Perm.refl _

theorem sortJs_perm {α : Type} (lt : α → α → Bool) (l : List α) :
    (sortJs lt l).Perm l := by
  induction l with
  | nil => exact List.Perm.refl _
  | cons x xs ih => exact (insertJs_perm lt x (sortJs lt xs)).trans (ih.cons x)

theorem mem_insertJs {α : Type} {lt : α → α → Bool} {x z : α} {l : List α}
    (h : z ∈ insertJs lt x l) : z = x ∨ z ∈ l :=
  List.mem_cons.mp ((insertJs_perm lt x l).mem_iff.mp h)

theorem insertJs_sorted {α : Type} {lt : α → α → Bool}
    (hasym : ∀ a b, lt a b = true → lt b a = false)
    (htr : ∀ a b c, lt b a = false → lt c b = false → lt c a = false)
    {x : α} {l : List α} (h : l.Pairwise (fun a b => lt b a = false)) :
    (insertJs lt x l).Pairwise (fun a b => lt b a = false) := by
  induction l with
  | nil => simp [insertJs]
  | cons y ys ih =>
    rcases List.pairwise_cons.mp h with ⟨hy, hys⟩
    by_cases hyx : lt y x = true
    · simp only [insertJs, hyx, if_true]
      refine List.pairwise_cons.mpr ⟨?_, ih hys⟩
      intro z hz
      rcases mem_insertJs hz with rfl | hz'
      · exact hasym y z hyx
      · exact hy z hz'
    · simp only [insertJs, hyx, if_false]
      have hyx' : lt y x = false := by
        cases hq : lt y x with
        | false => rfl
        | true => exact absurd hq hyx
      refine List.pairwise_cons.mpr ⟨?_, h⟩
      intro z hz
      rcases hz with _ | hz'
      · exact hyx'
      · exact htr x y z hyx' (hy z (by assumption))

/-- Sortedness of the JavaScript-sort model: the output is pairwise
ordered by the negation of the strict comparator. -/
theorem sortJs_sorted {α : Type} {lt : α → α → Bool}
    (hasym : ∀ a b, lt a b = true → lt b a = false)
    (htr : ∀ a b c, lt b a = false → lt c b = false → lt c a = false)
    (l : List α) :
    (sortJs lt l).Pairwise (fun a b => lt b a = false) := by
  induction l with
  | nil => simp [sortJs]
  | cons x xs ih => exact insertJs_sorted hasym htr ih

theorem keepFirsts_mem {α β : Type} {f : α → β} [DecidableEq β]
    {seen : List β} {l : List α} {x : α} (h : x ∈ keepFirsts f seen l) :
    x ∈ l ∧ f x ∉ seen := by
  induction l generalizing seen with
  | nil => simp [keepFirsts] at h
  | cons y ys ih =>
    by_cases hy : f y ∈ seen
    · simp only [keepFirsts, hy, if_true] at h
      rcases ih h with ⟨h1, h2⟩
      exact ⟨List.mem_cons_of_mem _ h1, h2⟩
    · simp only [keepFirsts, hy, if_false] at h
      rcases List.mem_cons.mp h with rfl | h'
      · exact ⟨List.mem_cons_self _ _, hy⟩
      · rcases ih h' with ⟨h1, h2⟩
        exact ⟨List.mem_cons_of_mem _ h1, fun hm => h2 (List.mem_cons_of_mem _ hm)⟩

theorem keepFirsts_keys_nodup {α β : Type} (f : α → β) [DecidableEq β]
    (seen : List β) (l : List α) :
    ((keepFirsts f seen l).map f).Nodup := by
  induction l generalizing seen with
  | nil => simp [keepFirsts]
  | cons y ys ih =>
    by_cases hy : f y ∈ seen
    · simp only [keepFirsts, hy, if_true]
      exact ih seen
    · simp only [keepFirsts, hy, if_false, List.map_cons]
      refine List.nodup_cons.mpr ⟨?_, ih (f y :: seen)⟩
      intro hm
      rcases List.mem_map.mp hm with ⟨z, hz, hfz⟩
      exact (keepFirsts_mem hz).2 (hfz ▸ List.mem_cons_self _ _)

/-- Every survivor of the first-occurrence filter is the first element of
the input carrying its key. -/
theorem keepFirsts_find {α β : Type} {f : α → β} [DecidableEq β]
    {seen : List β} {l : List α} {x : α} (h : x ∈ keepFirsts f seen l) :
    l.find? (fun y => decide (f y = f x)) = some x := by
  induction l generalizing seen with
  | nil => simp [keepFirsts] at h
  | cons y ys ih =>
    by_cases hy : f y ∈ seen
    · simp only [keepFirsts, hy, if_true] at h
      have hne : f y ≠ f x := fun e => (keepFirsts_mem h).2 (e ▸ hy)
      rw [List.find?_cons]
      simp only [hne, decide_eq_true_eq, if_neg, decide_False]
      exact ih h
    · simp only [keepFirsts, hy, if_false] at h
      rcases List.mem_cons.mp h with rfl | h'
      · rw [List.find?_cons]
        simp
      · have hne : f y ≠ f x := by
          intro e
          exact (keepFirsts_mem h').2 (e ▸ List.mem_cons_self _ _)
        rw [List.find?_cons]
        simp only [hne, decide_eq_true_eq, if_neg, decide_False]
        exact ih h'

theorem keepFirsts_congr {α β : Type} (f : α → β) [DecidableEq β]
    {s s' : List β} (hss : ∀ b, b ∈ s ↔ b ∈ s') (l : List α) :
    keepFirsts f s l = keepFirsts f s' l := by
  induction l generalizing s s' with
  | nil => rfl
  | cons y ys ih =>
    by_cases hy : f y ∈ s
    · simp only [keepFirsts, hy, if_true, (hss (f y)).mp hy, ih hss]
    · have hy' : f y ∉ s' := fun e => hy ((hss (f y)).mpr e)
      have : ∀ b, b ∈ f y :: s ↔ b ∈ f y :: s' := by
        intro b
        simp [hss b]
      simp only [keepFirsts, hy, hy', if_false, ih this]

theorem findIdx_append_none {α : Type} {p : α → Bool} {pre : List α}
    (h : ∀ y ∈ pre, p y = false) (rest : List α) :
    (pre ++ rest).findIdx p = pre.length + rest.findIdx p := by
  induction pre with
  | nil => simp
  | cons a t ih =>
    have ha := h a (List.mem_cons_self a t)
    have ih' := ih (fun y hy => h y (List.mem_cons_of_mem _ hy))
    simp only [List.cons_append, List.findIdx_cons, ha, cond_false, ih',
      List.length_cons]
    omega

theorem findIdx_append_hit {α : Type} {p : α → Bool} {pre : List α}
    (h : ∃ y ∈ pre, p y = true) (rest : List α) :
    (pre ++ rest).findIdx p < pre.length := by
  induction pre with
  | nil => simp at h
  | cons a t ih =>
    by_cases ha : p a = true
    · simp [List.findIdx_cons, ha]
    · have ha' : p a = false := by
        cases hq : p a with
        | false => rfl
        | true => exact absurd hq ha
      rcases h with ⟨y, hy, hpy⟩
      rcases List.mem_cons.mp hy with rfl | hy'
      · exact absurd hpy ha
      · have := ih ⟨y, hy', hpy⟩
        simp only [List.cons_append, List.findIdx_cons, ha', cond_false,
          List.length_cons]
        omega

theorem jsUniqueBy_aux {α β : Type} (f : α → β) [DecidableEq β] :
    ∀ (xs pre : List α),
    ((List.enumFrom pre.length xs).filter
        (fun p => (pre ++ xs).findIdx (fun c => decide (f c = f p.2)) == p.1)).map
      (·.2) = keepFirsts f (pre.map f) xs := by
  intro xs
  induction xs with
  | nil => intro pre; rfl
  | cons x xs' ih =>
    intro pre
    have hsplit : pre ++ x :: xs' = (pre ++ [x]) ++ xs' := by simp
    have hlen : (pre ++ [x]).length = pre.length + 1 := by simp
    have htail :
        ((List.enumFrom (pre.length + 1) xs').filter
            (fun p => (pre ++ x :: xs').findIdx (fun c => decide (f c = f p.2)) == p.1)).map
          (·.2) = keepFirsts f ((pre ++ [x]).map f) xs' := by
      rw [hsplit, ← hlen]
      exact ih (pre ++ [x])
    by_cases hx : f x ∈ pre.map f
    · have hhit : ∃ y ∈ pre, (fun c => decide (f c = f x)) y = true := by
        rcases List.mem_map.mp hx with ⟨y, hy, hfy⟩
        exact ⟨y, hy, by simp [hfy]⟩
      have hlt := findIdx_append_hit hhit (x :: xs')
      have hbeq :
          ((pre ++ x :: xs').findIdx (fun c => decide (f c = f x)) == pre.length) = false := by
        simp only [beq_eq_false_iff_ne]
        omega
      rw [List.enumFrom_cons, List.filter_cons]
      simp only [hbeq]
      rw [if_neg Bool.false_ne_true]
      rw [htail, @keepFirsts_congr _ _ f _ _ (pre.map f)
        (by intro b; simp only [List.map_append, List.map_cons, List.map_nil,
              List.mem_append, List.mem_cons, List.not_mem_nil, or_false]
            constructor
            · rintro (hb | rfl)
              · exact hb
              · exact hx
            · intro hb; exact Or.inl hb) xs']
      simp only [keepFirsts, hx, if_true]
    · have hnone : ∀ y ∈ pre, (fun c => decide (f c = f x)) y = false := by
        intro y hy
        by_cases he : f y = f x
        · exact absurd (List.mem_map.mpr ⟨y, hy, he⟩) (he ▸ hx)
        · simp [he]
      have hidx : (pre ++ x :: xs').findIdx (fun c => decide (f c = f x)) = pre.length := by
        rw [findIdx_append_none hnone]
        simp [List.findIdx_cons]
      rw [List.enumFrom_cons, List.filter_cons]
      simp only [hidx, beq_self_eq_true, if_true, List.map_cons]
      rw [htail, @keepFirsts_congr _ _ f _ _ (f x :: pre.map f)
        (by intro b; simp only [List.map_append, List.map_cons, List.map_nil,
              List.mem_append, List.mem_cons, List.not_mem_nil, or_false]
            tauto) xs']
      simp only [keepFirsts, hx, if_false]

/-- The findIndex-based filter keeps exactly the first occurrence of every
key, in input order. -/
theorem jsUniqueBy_eq_keepFirsts {α β : Type} (f : α → β) [DecidableEq β]
    (l : List α) : jsUniqueBy f l = keepFirsts f [] l := by
  have h := jsUniqueBy_aux f l []
  simpa [jsUniqueBy, List.enum] using h

theorem pass_n_escape (l : List Char) (h : bsc ∉ l) :
    replaceAll [bsc, 'n'] ['\n'] (l.flatMap escCh) = l.flatMap escCh1 := by
  refine flatMap_step _ _ _ l rfl ?_
  intro c hcl z
  have hc : c ≠ bsc := fun e => h (e ▸ hcl)
  show rplAux [bsc, 'n'] ['\n'] 0 (escCh c ++ z) = escCh1 c ++ rplAux [bsc, 'n'] ['\n'] 0 z
  by_cases h1 : c = '"'
  · subst h1
    simpa using rplAux_two_miss (x := '"') ['\n'] z (by decide) (by decide)
  by_cases h2 : c = '\n'
  · subst h2
    simpa using rplAux_two_hit bsc 'n' ['\n'] z
  by_cases h3 : c = '\r'
  · subst h3
    simpa using rplAux_two_miss (x := 'r') ['\n'] z (by decide) (by decide)
  by_cases h4 : c = '\t'
  · subst h4
    simpa using rplAux_two_miss (x := 't') ['\n'] z (by decide) (by decide)
  have he : escCh c = [c] := by simp [escCh, h1, hc, h2, h3, h4]
  have he1 : escCh1 c = [c] := by simp [escCh1, h1, h3, h4]
  rw [he, he1]
  simpa using rplAux_one_miss ['n'] ['\n'] z hc

theorem pass_r_escape (l : List Char) (h : bsc ∉ l) :
    replaceAll [bsc, 'r'] ['\r'] (l.flatMap escCh1) = l.flatMap escCh2 := by
  refine flatMap_step _ _ _ l rfl ?_
  intro c hcl z
  have hc : c ≠ bsc := fun e => h (e ▸ hcl)
  show rplAux [bsc, 'r'] ['\r'] 0 (escCh1 c ++ z) = escCh2 c ++ rplAux [bsc, 'r'] ['\r'] 0 z
  by_cases h1 : c = '"'
  · subst h1
    simpa using rplAux_two_miss (x := '"') ['\r'] z (by decide) (by decide)
  by_cases h3 : c = '\r'
  · subst h3
    simpa using rplAux_two_hit bsc 'r' ['\r'] z
  by_cases h4 : c = '\t'
  · subst h4
    simpa using rplAux_two_miss (x := 't') ['\r'] z (by decide) (by decide)
  have he : escCh1 c = [c] := by simp [escCh1, h1, h3, h4]
  have he2 : escCh2 c = [c] := by simp [escCh2, h1, h4]
  rw [he, he2]
  simpa using rplAux_one_miss ['r'] ['\r'] z hc

theorem pass_t_escape (l : List Char) (h : bsc ∉ l) :
    replaceAll [bsc, 't'] ['\t'] (l.flatMap escCh2) = l.flatMap escCh3 := by
  refine flatMap_step _ _ _ l rfl ?_
  intro c hcl z
  have hc : c ≠ bsc := fun e => h (e ▸ hcl)
  show rplAux [bsc, 't'] ['\t'] 0 (escCh2 c ++ z) = escCh3 c ++ rplAux [bsc, 't'] ['\t'] 0 z
  by_cases h1 : c = '"'
  · subst h1
    simpa using rplAux_two_miss (x := '"') ['\t'] z (by decide) (by decide)
  by_cases h4 : c = '\t'
  · subst h4
    simpa using rplAux_two_hit bsc 't' ['\t'] z
  have he : escCh2 c = [c] := by simp [escCh2, h1, h4]
  have he3 : escCh3 c = [c] := by simp [escCh3, h1]
  rw [he, he3]
  simpa using rplAux_one_miss ['t'] ['\t'] z hc

theorem pass_q_escape (l : List Char) (h : bsc ∉ l) :
    replaceAll [bsc, '"'] ['"'] (l.flatMap escCh3) = l.flatMap (fun c => [c]) := by
  refine flatMap_step _ _ _ l rfl ?_
  intro c hcl z
  have hc : c ≠ bsc := fun e => h (e ▸ hcl)
  show rplAux [bsc, '"'] ['"'] 0 (escCh3 c ++ z) = [c] ++ rplAux [bsc, '"'] ['"'] 0 z
  by_cases h1 : c = '"'
  · subst h1
    simpa using rplAux_two_hit bsc '"' ['"'] z
  have he : escCh3 c = [c] := by simp [escCh3, h1]
  rw [he]
  simpa using rplAux_one_miss ['"'] ['"'] z hc

/-- Escaping then unescaping restores any backslash-free string. -/
theorem unescapeJson_escapeJson {l : List Char} (h : bsc ∉ l) :
    unescapeJson (escapeJson l) = l := by
  unfold unescapeJson escapeJson
  have hAdj := no_adj_escape l h
  rw [show ∀ x, replaceAll [bsc, bsc, 'n'] ['\n'] x = rplAux _ _ 0 x from fun _ => rfl,
    rplAux_id_of_no_adj hAdj]
  rw [show ∀ x, replaceAll [bsc, bsc, 'r'] ['\r'] x = rplAux _ _ 0 x from fun _ => rfl,
    rplAux_id_of_no_adj hAdj]
  rw [show ∀ x, replaceAll [bsc, bsc, 't'] ['\t'] x = rplAux _ _ 0 x from fun _ => rfl,
    rplAux_id_of_no_adj hAdj]
  rw [show ∀ x, replaceAll [bsc, bsc, '"'] ['"'] x = rplAux _ _ 0 x from fun _ => rfl,
    rplAux_id_of_no_adj hAdj]
  rw [show ∀ x, replaceAll [bsc, bsc, bsc, bsc] [bsc, bsc] x = rplAux _ _ 0 x from fun _ => rfl,
    rplAux_id_of_no_adj hAdj]
  rw [pass_n_escape l h, pass_r_escape l h, pass_t_escape l h, pass_q_escape l h,
    flatMap_singleton_id]
  rw [show ∀ x, replaceAll [bsc, bsc] [bsc] x = rplAux _ _ 0 x from fun _ => rfl,
    rplAux_id_of_not_mem h]
  exact replaceUnicode_id h

theorem sortChapters_sorted (l : List ChapterItem) :
    (sortChapters l).Pairwise (fun a b => chapterKey a ≤ chapterKey b) := by
  have h := @sortJs_sorted ChapterItem (fun a b => decide (chapterKey a < chapterKey b))
    (fun a b hab => by
      simp only [decide_eq_true_eq] at hab
      simp only [decide_eq_false_iff_not]
      omega)
    (fun a b c h1 h2 => by
      simp only [decide_eq_false_iff_not] at h1 h2 ⊢
      omega)
    l
  exact h.imp (fun hab => by
    simp only [decide_eq_false_iff_not] at hab
    omega)

/-- Normalisation shared by the plugins that deduplicate and sort: when
every record carries a chapter number, deduplicating by `chapterNumber`
(first occurrence kept) and sorting by the chapter comparator yields a
strictly ascending, duplicate-free list whose members are the first
input records of their chapter number. -/
theorem sorted_unique_chapters (l : List ChapterItem)
    (hsome : ∀ x ∈ l, (x.chapterNumber).isSome = true) :
    ((sortChapters (jsUniqueBy (fun c => c.chapterNumber) l)).Pairwise
        (fun a b => chapterKey a < chapterKey b)) ∧
    (((sortChapters (jsUniqueBy (fun c => c.chapterNumber) l)).map
        (fun c => c.chapterNumber)).Nodup) ∧
    (∀ x ∈ sortChapters (jsUniqueBy (fun c => c.chapterNumber) l),
      l.find? (fun y => decide (y.chapterNumber = x.chapterNumber)) = some x) := by
  have hbr : jsUniqueBy (fun c : ChapterItem => c.chapterNumber) l
      = keepFirsts (fun c => c.chapterNumber) [] l := jsUniqueBy_eq_keepFirsts _ l
  have hperm : (sortChapters (jsUniqueBy (fun c : ChapterItem => c.chapterNumber) l)).Perm
      (jsUniqueBy (fun c : ChapterItem => c.chapterNumber) l) := sortJs_perm _ _
  have hnodupU : ((jsUniqueBy (fun c : ChapterItem => c.chapterNumber) l).map
      (fun c => c.chapterNumber)).Nodup := by
    rw [hbr]
    exact keepFirsts_keys_nodup _ [] l
  have hnodupS : ((sortChapters (jsUniqueBy (fun c : ChapterItem => c.chapterNumber) l)).map
      (fun c => c.chapterNumber)).Nodup :=
    ((hperm.map _).symm).nodup hnodupU
  have hmemL : ∀ x ∈ sortChapters (jsUniqueBy (fun c : ChapterItem => c.chapterNumber) l),
      x ∈ l := by
    intro x hx
    have hxu := hperm.mem_iff.mp hx
    rw [hbr] at hxu
    exact (keepFirsts_mem hxu).1
  have hne : (sortChapters (jsUniqueBy (fun c : ChapterItem => c.chapterNumber) l)).Pairwise
      (fun a b => a.chapterNumber ≠ b.chapterNumber) := by
    have hp : ((sortChapters (jsUniqueBy (fun c : ChapterItem => c.chapterNumber) l)).map
        (fun c => c.chapterNumber)).Pairwise Ne := hnodupS
    exact List.pairwise_map.mp hp
  have hsorted := sortChapters_sorted (jsUniqueBy (fun c : ChapterItem => c.chapterNumber) l)
  refine ⟨?_, hnodupS, ?_⟩
  · refine (hsorted.and hne).imp_of_mem ?_
    intro a b ha hb hab
    obtain ⟨hle, hneq⟩ := hab
    rcases Option.isSome_iff_exists.mp (hsome a (hmemL a ha)) with ⟨m, hm⟩
    rcases Option.isSome_iff_exists.mp (hsome b (hmemL b hb)) with ⟨n, hn⟩
    have hmn : m ≠ n := fun e => hneq (by rw [hm, hn, e])
    simp only [chapterKey, hm, hn, Option.getD_some] at hle ⊢
    omega
  · intro x hx
    have hxu := hperm.mem_iff.mp hx
    rw [hbr] at hxu
    exact keepFirsts_find hxu

theorem dreamyChapterOfEntry_num {illust : List Nat} {slug e : List Char}
    {x : ChapterItem} (h : dreamyChapterOfEntry illust slug e = some x) :
    (x.chapterNumber).isSome = true := by
  unfold dreamyChapterOfEntry at h
  split at h
  · split at h
    · rcases Option.some.inj h with rfl
      rfl
    · exact absurd h (by simp)
  · exact absurd h (by simp)

theorem dreamyRawChapters_some (body : List Char) (novelPath : String) :
    ∀ x ∈ dreamyRawChapters body novelPath, (x.chapterNumber).isSome = true := by
  intro x hx
  unfold dreamyRawChapters at hx
  rcases List.mem_filterMap.mp hx with ⟨e, _, he⟩
  exact dreamyChapterOfEntry_num he

theorem prepend_inj (pre : String) : Function.Injective (fun s => pre ++ s) := by
  intro a b h
  have hd : (pre ++ a).data = (pre ++ b).data := congrArg String.data h
  rw [String.data_append, String.data_append] at hd
  exact String.ext (List.append_cancel_left hd)

theorem nhSearchGo_eq (seen : List String) (ps : List NhNovel) :
    nhSearchGo seen ps =
      (keepFirsts (fun p => p.slug) seen (ps.filter (fun p => p.isNovel))).map
        nhNovelItem := by
  induction ps generalizing seen with
  | nil => rfl
  | cons p ps ih =>
    by_cases hn : p.isNovel
    · by_cases hs : p.slug ∈ seen
      · simp [nhSearchGo, hn, hs, List.filter_cons, keepFirsts, ih]
      · simp [nhSearchGo, hn, hs, List.filter_cons, keepFirsts, ih]
    · simp [nhSearchGo, hn, List.filter_cons, ih]

/-- C1: the claim asserts that every chapter list produced by `parseNovel`
or `parsePage` is strictly ascending by `chapterNumber` with duplicates
dropped, first occurrence kept.  This fails for novelshub `parseNovel`,
which sorts but never deduplicates: on a response holding two chapters
both numbered 5 the returned list keeps both, so its `chapterNumber`s are
`[some 5, some 5]`, not duplicate-free and not strictly ascending. -/
theorem C1_counterexample :
    (nhParseNovelChapters "s" nhDupEnv 1).map
        (fun p => p.1.map (fun c => c.chapterNumber)) = some [some 5, some 5] ∧
    ¬ (((nhParseNovelChapters "s" nhDupEnv 1).map
        (fun p => p.1.map (fun c => c.chapterNumber))).getD []).Nodup := by
  constructor
  · decide
  · decide

/-- C1 (amended): dreamytranslations `parseNovel` does return a strictly
ascending chapter list with no duplicate `chapterNumber`, each member
being the first extracted record of its chapter number; novelshub
`parseNovel` only guarantees a weakly ascending order and retains
duplicate chapter numbers. -/
theorem C1_amended_ok :
    (∀ (body : List Char) (novelPath : String),
      ((dreamyParseNovel body novelPath).chapters.Pairwise
        (fun a b => chapterKey a < chapterKey b)) ∧
      (((dreamyParseNovel body novelPath).chapters.map
          (fun c => c.chapterNumber)).Nodup) ∧
      (∀ x ∈ (dreamyParseNovel body novelPath).chapters,
        (dreamyRawChapters body novelPath).find?
          (fun y => decide (y.chapterNumber = x.chapterNumber)) = some x)) ∧
    (∀ (slug : String) (env : Nat → NhChaptersResp) (fuel : Nat)
        (out : List ChapterItem × Nat),
      nhParseNovelChapters slug env fuel = some out →
      out.1.Pairwise (fun a b => chapterKey a ≤ chapterKey b)) := by
  constructor
  · intro body novelPath
    exact sorted_unique_chapters (dreamyRawChapters body novelPath)
      (dreamyRawChapters_some body novelPath)
  · intro slug env fuel out h
    unfold nhParseNovelChapters at h
    cases hl : nhChapterLoop slug env fuel 0 [] 0 with
    | none =>
      rw [hl] at h
      exact absurd h (by simp)
    | some p =>
      rw [hl] at h
      simp only [Option.map_some'] at h
      rw [← Option.some.inj h]
      exact sortChapters_sorted p.1

/-- C1 witness: the amended theorem applied to the concrete chapter body
`dreamyChBody` and to the duplicate-number novelshub response. -/
theorem C1_witness :
    ((dreamyParseNovel dreamyChBody "novel/p").chapters.Pairwise
      (fun a b => chapterKey a < chapterKey b)) ∧
    nhDupOut.1.Pairwise (fun a b => chapterKey a ≤ chapterKey b) :=
  ⟨(C1_amended_ok.1 dreamyChBody "novel/p").1,
   C1_amended_ok.2 "s" nhDupEnv 1 nhDupOut (by decide)⟩

/-- C2: the claim asserts a round-trip for strings of printable
characters, quotes, backslashes and newlines.  It fails on backslashes:
escaping two backslashes gives four, which `unescapeJson` collapses to a
single backslash (the four-backslash pass and the two-backslash pass both
fire). -/
theorem C2_counterexample :
    escapeJson [bsc, bsc] = [bsc, bsc, bsc, bsc] ∧
    unescapeJson (escapeJson [bsc, bsc]) = [bsc] ∧
    [bsc] ≠ [bsc, bsc] := by
  refine ⟨by decide, by decide, by decide⟩

/-- C2 (amended): `unescapeJson` is the identity on backslash-free
strings, and escaping then unescaping restores any backslash-free string
of printable characters, quotes and newlines. -/
theorem C2_amended_ok :
    (∀ l : List Char, bsc ∉ l → unescapeJson l = l) ∧
    (∀ l : List Char, bsc ∉ l → unescapeJson (escapeJson l) = l) :=
  ⟨fun _ h => unescapeJson_id h, fun _ h => unescapeJson_escapeJson h⟩

/-- C2 witness: both amended parts at the concrete string `a"⏎`. -/
theorem C2_witness :
    unescapeJson ['a', '"', '\n'] = ['a', '"', '\n'] ∧
    unescapeJson (escapeJson ['a', '"', '\n']) = ['a', '"', '\n'] :=
  ⟨C2_amended_ok.1 _ (by decide), C2_amended_ok.2 _ (by decide)⟩

/-- C3: the claim asserts the decoder yields one record with the title
decoded to `A⏎B`.  It yields NO record: the anchor pattern delimits the
title with `[^\\]+`, which cannot match any backslash, so a title
containing the escape sequence `\\n` defeats the anchor entirely and the
extraction loop produces an empty list. -/
theorem C3_counterexample :
    dreamyExtractNovels dreamyFixtureEscTitle = [] ∧
    (dreamyExtractNovels dreamyFixtureEscTitle).length ≠ 1 := by
  refine ⟨by decide, by decide⟩

/-- C3 (amended): on the same fixture with a backslash-free title `AB`,
the decoder yields exactly one record with id `7`, title `AB` (returned
verbatim — a backslash-free capture is a fixed point of the unescape
routine), slug `a-b` and `totalChapters` 3 found in the look-ahead
window. -/
theorem C3_amended_ok :
    (dreamyExtractNovels dreamyFixturePlain).map
        (fun r => (r.id, r.title, r.slug, r.totalChapters)) =
      [("7".data, "AB".data, "a-b".data, 3)] ∧
    (dreamyExtractNovels dreamyFixturePlain).length = 1 := by
  refine ⟨by decide, by decide⟩

/-- C4: the spec requires a hard recursion/hop limit on redirect
following, but `fetchJson` recurses on every 3xx-with-location response
with no counter: on a redirect loop, no amount of fuel ever completes the
call — the function performs one further request per unit of fuel instead
of stopping at a fixed bound. -/
theorem C4_no_redirect_bound :
    ∀ (fuel : Nat) (url : String),
      fetchJson (0 : Nat) (fun _ => none) redirectLoopEnv fuel url = none := by
  intro fuel
  induction fuel with
  | zero => intro url; rfl
  | succ n ih =>
    intro url
    show fetchJson (0 : Nat) (fun _ => none) redirectLoopEnv (n + 1) url = none
    unfold fetchJson
    rw [if_pos (by constructor <;> simp [redirectLoopEnv])]
    exact ih url

/-- C4 witness: five hops of fuel are still exhausted on the loop. -/
theorem C4_witness :
    fetchJson (0 : Nat) (fun _ => none) redirectLoopEnv 5 "https://a" = none :=
  C4_no_redirect_bound 5 "https://a"

/-- C5: the claim promises an empty chapter list whenever the first
response reports a total of 0.  The loop body pushes whatever records the
response carries before testing the total, so a (inconsistent) response
with total 0 and one chapter yields a singleton list — with exactly one
fetch, as claimed. -/
theorem C5_counterexample :
    (nhParseNovelChapters "s" nhZeroTotalEnv 1).map
        (fun p => (p.1.length, p.2)) = some (1, 1) ∧
    nhParseNovelChapters "s" nhZeroTotalEnv 1 ≠ some ([], 1) := by
  refine ⟨by decide, by decide⟩

/-- C5 (amended): when the first skip/take response reports a total of 0,
`parseNovel` issues exactly one chapters fetch and returns precisely the
sorted mapping of that single response's records — hence the empty list
whenever the response carries no records, which is the consistent case
for a zero total. -/
theorem C5_amended_ok (slug : String) (env : Nat → NhChaptersResp)
    (fuel : Nat) (h : (env 0).totalChapterCount.getD 0 = 0) :
    nhParseNovelChapters slug env (fuel + 1) =
      some (sortChapters (((env 0).chapters.getD []).map (nhChapterItem slug)), 1) ∧
    ((env 0).chapters.getD [] = [] →
      nhParseNovelChapters slug env (fuel + 1) = some ([], 1)) := by
  have hloop : nhChapterLoop slug env (fuel + 1) 0 [] 0 =
      some (((env 0).chapters.getD []).map (nhChapterItem slug), 1) := by
    unfold nhChapterLoop
    simp only []
    rw [h]
    norm_num
  constructor
  · unfold nhParseNovelChapters
    rw [hloop]
    rfl
  · intro he
    unfold nhParseNovelChapters
    rw [hloop, he]
    rfl

/-- C5 witness: the amended theorem at the empty zero-total response —
exactly one fetch, empty chapter list. -/
theorem C5_witness : nhParseNovelChapters "s" nhEmptyEnv 1 = some ([], 1) :=
  (C5_amended_ok "s" nhEmptyEnv 0 (by decide)).2 (by decide)

/-- C6: the claim says no plugin substitutes a fabricated status for an
unmapped or absent upstream value, citing dreamytranslations `parseNovel`
among its sources.  That plugin never reads an upstream status at all: it
sets `NovelStatus.Ongoing` unconditionally (here: on an empty body, which
carries no status), which is not `Unknown`. -/
theorem C6_counterexample :
    (dreamyParseNovel [] "novel/x").status = NovelStatus.Ongoing ∧
    NovelStatus.Ongoing ≠ NovelStatus.Unknown :=
  ⟨rfl, by decide⟩

/-- C6 (amended): for novelshub `parseStatus` and the JadeScrolls
`releaseStatusMap` lookup the claim holds: `HIATUS` maps to `OnHiatus`,
the unrecognized `FOO` and an absent value map to `Unknown`, and in
general every string outside the recognized keys maps to `Unknown` (both
mappings are total functions, so neither throws); dreamytranslations
`parseNovel`, however, sets `Ongoing` unconditionally. -/
theorem C6_amended_ok :
    parseStatus (some "HIATUS") = NovelStatus.OnHiatus ∧
    jadeStatus (some "HIATUS") = NovelStatus.OnHiatus ∧
    parseStatus (some "FOO") = NovelStatus.Unknown ∧
    jadeStatus (some "FOO") = NovelStatus.Unknown ∧
    parseStatus none = NovelStatus.Unknown ∧
    jadeStatus none = NovelStatus.Unknown ∧
    (∀ s : String,
      jsToUpper s ≠ "ONGOING" → jsToUpper s ≠ "COMPLETED" → jsToUpper s ≠ "HIATUS" →
      parseStatus (some s) = NovelStatus.Unknown) ∧
    (∀ s : String, s ≠ "COMPLETED" → s ≠ "ONGOING" → s ≠ "HIATUS" → s ≠ "DROPPED" →
      jadeStatus (some s) = NovelStatus.Unknown) ∧
    (∀ body : List Char, ∀ novelPath : String,
      (dreamyParseNovel body novelPath).status = NovelStatus.Ongoing) := by
  refine ⟨by decide, by decide, by decide, by decide, rfl, rfl, ?_, ?_, fun _ _ => rfl⟩
  · intro s h1 h2 h3
    simp [parseStatus, h1, h2, h3]
  · intro s h1 h2 h3 h4
    have e1 : ("COMPLETED" == s) = false := beq_eq_false_iff_ne.mpr (Ne.symm h1)
    have e2 : ("ONGOING" == s) = false := beq_eq_false_iff_ne.mpr (Ne.symm h2)
    have e3 : ("HIATUS" == s) = false := beq_eq_false_iff_ne.mpr (Ne.symm h3)
    have e4 : ("DROPPED" == s) = false := beq_eq_false_iff_ne.mpr (Ne.symm h4)
    simp [jadeStatus, releaseStatusMap, List.find?, e1, e2, e3, e4]

/-- C6 witness: the universally quantified amended parts applied to the
concrete unmapped status string `WEIRD`. -/
theorem C6_witness :
    parseStatus (some "WEIRD") = NovelStatus.Unknown ∧
    jadeStatus (some "WEIRD") = NovelStatus.Unknown :=
  ⟨C6_amended_ok.2.2.2.2.2.2.1 "WEIRD" (by decide) (by decide) (by decide),
   C6_amended_ok.2.2.2.2.2.2.2.1 "WEIRD" (by decide) (by decide) (by decide)
     (by decide)⟩

/-- C7: on every page number greater than 1, all three `searchNovels`
implementations return the empty list having issued no network request
(the fetch counter stays 0): search is unpaginated on all three
sources. -/
theorem C7_holds (pageNo : Nat) (h : 1 < pageNo) :
    (∀ posts, nhSearchNovels pageNo posts = ([], 0)) ∧
    (∀ novels, jadeSearchNovels pageNo novels = ([], 0)) ∧
    (∀ (cmp : List Char → List Char → Int) (body : List Char) (term : String),
      dreamySearchNovels cmp body term pageNo = ([], 0)) := by
  refine ⟨fun posts => ?_, fun novels => ?_, fun cmp body term => ?_⟩
  · unfold nhSearchNovels
    rw [if_pos h]
  · unfold jadeSearchNovels
    rw [if_pos h]
  · unfold dreamySearchNovels
    rw [if_pos (by omega)]

/-- C7 witness: page 2 on each source. -/
theorem C7_witness :
    nhSearchNovels 2 none = ([], 0) ∧ jadeSearchNovels 2 none = ([], 0) ∧
    dreamySearchNovels (fun _ _ => 0) [] "q" 2 = ([], 0) :=
  ⟨(C7_holds 2 (by decide)).1 none, (C7_holds 2 (by decide)).2.1 none,
   (C7_holds 2 (by decide)).2.2 (fun _ _ => 0) [] "q"⟩

/-- C8: the claim says every response with status 304 yields an empty
object.  Status 304 lies in the 3xx redirect range, which `fetchJson`
tests first: a 304 response carrying a `location` header is followed as a
redirect instead, and here the call returns the redirect target's payload
1 rather than the empty object 0. -/
theorem C8_counterexample :
    fetchJson (0 : Nat) c8Parse c8Env 2 "a" = some (Except.ok 1) ∧
    (1 : Nat) ≠ 0 := by
  refine ⟨rfl, by decide⟩

/-- C8 (amended): unless the response is a redirect that is followed (3xx
with a `location` header), direct-mode decoding behaves as claimed: a 304
without `location`, a `content-length` of `'0'`, or an empty body text
yields the empty object, and a non-empty body the parser rejects is a
hard error surfaced to the caller. -/
theorem C8_amended_ok {J : Type} (emptyObj : J) (parse : String → Option J)
    (env : String → HttpResponse) (fuel : Nat) (url : String) :
    ((env url).status = 304 → (env url).location = none →
      fetchJson emptyObj parse env (fuel + 1) url = some (Except.ok emptyObj)) ∧
    (¬ (300 ≤ (env url).status ∧ (env url).status < 400) →
      (env url).contentLength = some "0" →
      fetchJson emptyObj parse env (fuel + 1) url = some (Except.ok emptyObj)) ∧
    (¬ (300 ≤ (env url).status ∧ (env url).status < 400) →
      (env url).bodyText = "" →
      fetchJson emptyObj parse env (fuel + 1) url = some (Except.ok emptyObj)) ∧
    (¬ (300 ≤ (env url).status ∧ (env url).status < 400) →
      (env url).bodyText ≠ "" → (env url).contentLength ≠ some "0" →
      parse (env url).bodyText = none →
      fetchJson emptyObj parse env (fuel + 1) url =
        some (Except.error "JSON.parse")) := by
  refine ⟨?_, ?_, ?_, ?_⟩
  · intro h304 hloc
    unfold fetchJson
    rw [if_pos (by omega), hloc]
    unfold fetchBody
    rw [if_pos (Or.inl h304)]
  · intro h3xx hcl
    unfold fetchJson
    rw [if_neg h3xx]
    unfold fetchBody
    rw [if_pos (Or.inr hcl)]
  · intro h3xx hbody
    unfold fetchJson
    rw [if_neg h3xx]
    unfold fetchBody
    by_cases hcl : (env url).contentLength = some "0"
    · rw [if_pos (Or.inr hcl)]
    · rw [if_neg (by simp [hcl]; omega), if_pos hbody]
  · intro h3xx hbody hcl hparse
    unfold fetchJson
    rw [if_neg h3xx]
    unfold fetchBody
    rw [if_neg (by simp [hcl]; omega), if_neg hbody, hparse]

/-- C8 witness: the amended theorem at the four concrete responses. -/
theorem C8_witness :
    fetchJson (0 : Nat) c8Parse c8WitEnv 1 "w304" = some (Except.ok 0) ∧
    fetchJson (0 : Nat) c8Parse c8WitEnv 1 "wlen" = some (Except.ok 0) ∧
    fetchJson (0 : Nat) c8Parse c8WitEnv 1 "wempty" = some (Except.ok 0) ∧
    fetchJson (0 : Nat) c8Parse c8WitEnv 1 "wbad" = some (Except.error "JSON.parse") :=
  ⟨(C8_amended_ok 0 c8Parse c8WitEnv 0 "w304").1 (by decide) (by decide),
   (C8_amended_ok 0 c8Parse c8WitEnv 0 "wlen").2.1 (by decide) (by decide),
   (C8_amended_ok 0 c8Parse c8WitEnv 0 "wempty").2.2.1 (by decide) (by decide),
   (C8_amended_ok 0 c8Parse c8WitEnv 0 "wbad").2.2.2 (by decide) (by decide)
     (by decide) (by decide)⟩

/-- C9: the claim says a detail fetch happens exactly when the path is
absent from the cache.  The JavaScript guard `if (!novelId)` also treats
a PRESENT entry whose id is the empty string as a miss: with the cache
`[("p", "")]` the path `p` is present, yet `parsePage` still issues the
detail fetch. -/
theorem C9_counterexample :
    lookupCache [("p", "")] "p" = some "" ∧
    (jadeParsePage (fun _ => "42") (fun _ _ => []) [("p", "")] "p" "1").2.2 =
      [JadeFetch.detail "p", JadeFetch.chapterList "42" "1"] ∧
    JadeFetch.detail "p" ∈
      (jadeParsePage (fun _ => "42") (fun _ _ => []) [("p", "")] "p" "1").2.2 := by
  refine ⟨rfl, rfl, by decide⟩

/-- C9 (amended): for a path absent from the cache, `parsePage` does not
fail: it issues the detail fetch, stores the resolved id under the path,
and proceeds with the chapter-page fetch; for a path present with a
NON-EMPTY id, no detail fetch is issued and the cache is unchanged. -/
theorem C9_amended_ok (detailEnv : String → String)
    (chapEnv : String → String → List JadeChapterRec)
    (cache : List (String × String)) (novelPath page : String) :
    (lookupCache cache novelPath = none →
      jadeParsePage detailEnv chapEnv cache novelPath page =
        (jadeMapChapters (chapEnv (detailEnv novelPath) page) (detailEnv novelPath),
         (novelPath, detailEnv novelPath) :: cache,
         [JadeFetch.detail novelPath,
          JadeFetch.chapterList (detailEnv novelPath) page])) ∧
    (∀ v, lookupCache cache novelPath = some v → v ≠ "" →
      jadeParsePage detailEnv chapEnv cache novelPath page =
        (jadeMapChapters (chapEnv v page) v, cache,
         [JadeFetch.chapterList v page])) := by
  constructor
  · intro h
    unfold jadeParsePage
    rw [h]
  · intro v hv hne
    unfold jadeParsePage
    rw [hv]
    simp only [if_neg hne]

/-- C9 witness: the amended theorem at an empty cache (miss) and at a
cache holding a non-empty id (hit). -/
theorem C9_witness :
    jadeParsePage (fun _ => "42") (fun _ _ => []) [] "p" "1" =
      ([], [("p", "42")], [JadeFetch.detail "p", JadeFetch.chapterList "42" "1"]) ∧
    jadeParsePage (fun _ => "42") (fun _ _ => []) [("p", "7")] "p" "1" =
      ([], [("p", "7")], [JadeFetch.chapterList "7" "1"]) :=
  ⟨(C9_amended_ok (fun _ => "42") (fun _ _ => []) [] "p" "1").1 rfl,
   (C9_amended_ok (fun _ => "42") (fun _ _ => []) [("p", "7")] "p" "1").2
     "7" rfl (by decide)⟩

/-- C10: novelshub `searchNovels` returns pairwise-distinct paths — every
result is the first novel-flagged record of its slug, later same-slug
records being skipped — while `popularNovels` gives no such guarantee:
on two novel records with the same slug it returns the duplicate path
twice. -/
theorem C10_holds (posts : List NhNovel) :
    (((nhSearchGo [] posts).map (fun n => n.path)).Nodup ∧
      ∀ x ∈ nhSearchGo [] posts, ∃ p, x = nhNovelItem p ∧
        (posts.filter (fun q => q.isNovel)).find?
          (fun q => decide (q.slug = p.slug)) = some p) ∧
    ¬ ((nhPopularList nhDupPosts).map (fun n => n.path)).Nodup := by
  refine ⟨⟨?_, ?_⟩, by decide⟩
  · rw [nhSearchGo_eq, List.map_map]
    have hcomp : ((fun n : NovelItem => n.path) ∘ nhNovelItem)
        = (fun s => "series/" ++ s) ∘ (fun p : NhNovel => p.slug) := rfl
    rw [hcomp, ← List.map_map]
    exact List.Nodup.map (prepend_inj _) (keepFirsts_keys_nodup _ [] _)
  · intro x hx
    rw [nhSearchGo_eq] at hx
    rcases List.mem_map.mp hx with ⟨p, hp, rfl⟩
    exact ⟨p, rfl, keepFirsts_find hp⟩

/-- C10 witness: the theorem at the duplicate-slug posts — search paths
distinct, popular paths not. -/
theorem C10_witness :
    ((nhSearchGo [] nhDupPosts).map (fun n => n.path)).Nodup ∧
    ¬ ((nhPopularList nhDupPosts).map (fun n => n.path)).Nodup :=
  ⟨(C10_holds nhDupPosts).1.1, (C10_holds nhDupPosts).2⟩
